import Mathlib

set_option autoImplicit false
set_option linter.unnecessarySeqFocus false

/-!
Verification of the Rego-conformance helpers (`rego_helpers.go`) of the
constraint-framework client package.

The Go code validates user-submitted Rego modules: `checkDataAccess` walks
every reference in a parsed module and flags illegal accesses to the
reserved `data` root, `getRuleArity` infers the arity of a rule from its head
key, `requireRules` checks declared rules against a required name-to-arity
map, and `ensureRegoConformance` orchestrates the import check, the data
access walk and the package-path rewrite.

The OPA parser and printer are external collaborators; they are modelled
as function parameters (`parse`, `render`) of the operations that use
them, with any round-trip facts a theorem needs stated as explicit
hypotheses.  Go maps are modelled by association lists: a map value is
represented by the sequence in which a `range` loop happens to enumerate
it, which for Go is an arbitrary permutation of the entries.
-/

namespace RegoHelpers

/-- Shallow embedding of the OPA AST term values that `rego_helpers.go`
inspects: variables, scalars, arrays, objects and references.  A
reference is the ordered list of its term values (`ast.Ref` is a slice
of terms). -/
inductive Value where
  | var : String → Value
  | str : String → Value
  | num : Int → Value
  | boolV : Bool → Value
  | nullV : Value
  | arr : List Value → Value
  | obj : List (Value × Value) → Value
  | ref : List Value → Value

mutual
/-- IsGround of a value: variables are not ground, scalars are, composites
are ground when their parts are, and a reference is ground when every term
after its head is ground (OPA `Ref.IsGround` skips the head). -/
def isGroundV : Value → Bool
  | .var _ => false
  | .arr es => isGroundL es
  | .obj kvs => isGroundP kvs
  | .ref [] => true
  | .ref (_ :: ts) => isGroundL ts
  | _ => true

/-- Groundness of a list of term values. -/
def isGroundL : List Value → Bool
  | [] => true
  | v :: vs => isGroundV v && isGroundL vs

/-- Groundness of object key/value pairs. -/
def isGroundP : List (Value × Value) → Bool
  | [] => true
  | (k, v) :: kvs => isGroundV k && isGroundV v && isGroundP kvs
end

/-- A rule: name, head arguments, optional head key and value, and the
terms of its body, in document order. -/
structure Rule where
  name : String
  args : List Value
  key : Option Value
  value : Option Value
  body : List Value

/-- A parsed module: package path (a reference), the path terms of
its import declarations, and its rules, in document order. -/
structure Module where
  pkgPath : List Value
  imports : List Value
  rules : List Rule

/-- The three data-access violations produced by `checkDataAccess`:
a bare `data` reference, a non-literal field access, and an access to a
field outside the allow-set. -/
inductive DataErr where
  | missingField (r : List Value)
  | literalAccess (r : List Value)
  | invalidField (v : Value)

/-- The allow-set of `data` fields (`validDataFields` in the Go source):
exactly the field `inventory`. -/
def validDataFields (s : String) : Bool := s == "inventory"

/-- Whether a reference has the reserved root `data` as its leading term
(`r.HasPrefix(ast.DefaultRootRef)`). -/
def refHasDataRoot : List Value → Bool
  | Value.var s :: _ => s == "data"
  | _ => false

/-- The closure passed to `ast.WalkRefs` in `checkDataAccess`: for a
reference rooted at `data` it produces at most one violation, checking in
order the length, the groundness of the second term, and membership of
the second term in the allow-set.  The boolean is the skip-children
signal of the visitor; the Go closure returns `false` on every path.
The second term is read with a default that is only reachable when the
length guard has already produced a violation. -/
def refCallback (r : List Value) : Option DataErr × Bool :=
  if refHasDataRoot r then
    if r.length < 2 then (some (.missingField r), false)
    else if !isGroundV (r.getD 1 .nullV) then (some (.literalAccess r), false)
    else
      match r.getD 1 .nullV with
      | .str s =>
        if validDataFields s then (none, false)
        else (some (.invalidField (.str s)), false)
      | v => (some (.invalidField v), false)
  else (none, false)

mutual
/-- The `ast.WalkRefs` traversal of a term value as driven by the
`checkDataAccess` closure: on a reference the callback fires first and
its skip signal decides whether the own terms of the reference are traversed;
arrays and objects are traversed structurally; scalars and variables
contribute nothing.  Violations accumulate in visit order. -/
def walkV : Value → List DataErr
  | .arr es => walkL es
  | .obj kvs => walkP kvs
  | .ref ts =>
    let c := refCallback ts
    c.1.toList ++ (if c.2 then [] else walkL ts)
  | _ => []

/-- Traversal of a list of term values, left to right. -/
def walkL : List Value → List DataErr
  | [] => []
  | v :: vs => walkV v ++ walkL vs

/-- Traversal of object key/value pairs, key before value. -/
def walkP : List (Value × Value) → List DataErr
  | [] => []
  | (k, v) :: kvs => walkV k ++ walkV v ++ walkP kvs
end

/-- Traversal of an optional term (absent head key or value). -/
def walkOpt : Option Value → List DataErr
  | none => []
  | some v => walkV v

/-- Traversal of one rule: head arguments, head key, head value, body. -/
def walkRule (r : Rule) : List DataErr :=
  walkL r.args ++ walkOpt r.key ++ walkOpt r.value ++ walkL r.body

/-- Traversal of the rules of a module, in document order. -/
def walkRules : List Rule → List DataErr
  | [] => []
  | r :: rs => walkRule r ++ walkRules rs

/-- The full `ast.WalkRefs(module, ...)` traversal: the package path is
itself a reference and is visited first, then the import paths, then the
rules. -/
def walkModule (m : Module) : List DataErr :=
  walkV (Value.ref m.pkgPath) ++ walkL m.imports ++ walkRules m.rules

/-- checkDataAccess: run the walk and return the violations when there
are any, `none` (Go `nil`) otherwise. -/
def checkDataAccess (m : Module) : Option (List DataErr) :=
  let errs := walkModule m
  if errs.length > 0 then some errs else none

/-- Specification-side test: is this term the string literal
`"inventory"`, the only member of the fixed allow-set? -/
def isInventoryString : Value → Bool
  | .str s => s == "inventory"
  | _ => false

/-- Specification-side per-reference classifier, following the words
of the specification: for a reference whose leading segment is the
reserved root `data`, length below two is the missing-field violation, a
non-ground second segment is the literal-access violation, and a ground
second segment other than the string `"inventory"` is the invalid-field
violation; other references are conforming. -/
def specRefViolation (r : List Value) : Option DataErr :=
  if refHasDataRoot r then
    if r.length < 2 then some (.missingField r)
    else if isGroundV (r.getD 1 .nullV) = false then some (.literalAccess r)
    else if isInventoryString (r.getD 1 .nullV) then none
    else some (.invalidField (r.getD 1 .nullV))
  else none

mutual
/-- Specification-side enumeration of every reference inside a term
value, in pre-order document order (a reference is listed before the
references nested in its own terms). -/
def refsV : Value → List (List Value)
  | .arr es => refsL es
  | .obj kvs => refsP kvs
  | .ref ts => ts :: refsL ts
  | _ => []

/-- References inside a list of term values. -/
def refsL : List Value → List (List Value)
  | [] => []
  | v :: vs => refsV v ++ refsL vs

/-- References inside object key/value pairs. -/
def refsP : List (Value × Value) → List (List Value)
  | [] => []
  | (k, v) :: kvs => refsV k ++ refsV v ++ refsP kvs
end

/-- References inside an optional term. -/
def refsOpt : Option Value → List (List Value)
  | none => []
  | some v => refsV v

/-- References inside one rule, in document order. -/
def ruleRefs (r : Rule) : List (List Value) :=
  refsL r.args ++ refsOpt r.key ++ refsOpt r.value ++ refsL r.body

/-- References inside a list of rules. -/
def rulesRefs : List Rule → List (List Value)
  | [] => []
  | r :: rs => ruleRefs r ++ rulesRefs rs

/-- Every reference of a module in document order: the package path
reference itself, references nested in it, import paths, then rules. -/
def allRefsModule (m : Module) : List (List Value) :=
  (m.pkgPath :: refsL m.pkgPath) ++ refsL m.imports ++ rulesRefs m.rules

/-- The two rule-signature error shapes of `getRuleArity`: a head-key
array with an element that is neither a variable nor an object, and a
head key that is neither a variable nor an array. -/
inductive SigErr where
  | invalidArrayElems (v : List Value)
  | invalidKeyShape (t : Value)

/-- Whether a head-key array element is a variable or an object literal,
the shapes `getRuleArity` accepts inside an array. -/
def isVarOrObject : Value → Bool
  | .var _ => true
  | .obj _ => true
  | _ => false

/-- getRuleArity: no head key is arity 0, a single variable is arity 1,
an array of variables and objects has the length of the array as arity, any
other array element shape or any other head-key shape is an invalid
signature. -/
def getRuleArity (r : Rule) : Except SigErr Nat :=
  match r.key with
  | none => .ok 0
  | some t =>
    match t with
    | .var _ => .ok 1
    | .arr v =>
      if v.any (fun e => !isVarOrObject e) then .error (.invalidArrayElems v)
      else .ok v.length
    | _ => .error (.invalidKeyShape t)

/-- One entry of the aggregated `requireRules` error: a required rule
that is absent, or present with the wrong arity (carrying the declared
and the required arity, in the order of the Go message). -/
inductive ReqItem where
  | missingRule (name : String)
  | arityMismatch (name : String) (got want : Nat)
  deriving DecidableEq

/-- The possible results of `requireRules`: a parser failure, an
invalid-signature abort from arity inference, or the aggregate of
missing-rule and arity-mismatch findings. -/
inductive ReqErr where
  | parseFailure (msg : String)
  | sig (e : SigErr)
  | agg (errs : List ReqItem)

/-- Lookup in the name-to-arity association list modelling the Go
`ruleArities` map. -/
def lookupArity : List (String × Nat) → String → Option Nat
  | [], _ => none
  | (k, v) :: rest, name => if k = name then some v else lookupArity rest name

/-- Insertion into the name-to-arity map; a duplicate name silently
overwrites the earlier arity, as a Go map assignment does. -/
def insertArity (ar : List (String × Nat)) (name : String) (arity : Nat) :
    List (String × Nat) :=
  (name, arity) :: ar.filter (fun p => p.1 != name)

/-- The map-building loop of `requireRules`: infer the arity of each
declared rule and record it under the name of the rule, aborting on the first
inference failure. -/
def buildArities : List Rule → List (String × Nat) → Except SigErr (List (String × Nat))
  | [], ar => .ok ar
  | r :: rs, ar =>
    match getRuleArity r with
    | .error e => .error e
    | .ok a => buildArities rs (insertArity ar r.name a)

/-- The requirements loop of `requireRules`, over the iteration sequence
of the required map: a name absent from the declared map accumulates a
missing-rule entry, a name with a different declared arity accumulates an
arity-mismatch entry. -/
def collectReqErrs (ar : List (String × Nat)) : List (String × Nat) → List ReqItem
  | [] => []
  | (name, arity) :: rest =>
    match lookupArity ar name with
    | none => .missingRule name :: collectReqErrs ar rest
    | some actual =>
      if arity ≠ actual then .arityMismatch name actual arity :: collectReqErrs ar rest
      else collectReqErrs ar rest

/-- The body of `requireRules` after parsing: build the arity map, then
collect the missing/mismatch findings and return them when there are
any. -/
def requireRulesOnModule (m : Module) (reqs : List (String × Nat)) : Except ReqErr Unit :=
  match buildArities m.rules [] with
  | .error e => .error (.sig e)
  | .ok arities =>
    let errs := collectReqErrs arities reqs
    if errs.length ≠ 0 then .error (.agg errs) else .ok ()

/-- requireRules: parse the source with the external parser, then check
the declared rules against the required name-to-arity map.  `reqs` is
the sequence in which a Go `range` loop enumerates the required map. -/
def requireRules (parse : String → String → Except String Module)
    (name rego : String) (reqs : List (String × Nat)) : Except ReqErr Unit :=
  match parse name rego with
  | .error e => .error (.parseFailure e)
  | .ok m => requireRulesOnModule m reqs

/-- Specification-side classifier for one required (name, arity) pair
against the declared map. -/
def specReqViolation (ar : List (String × Nat)) (p : String × Nat) : Option ReqItem :=
  match lookupArity ar p.1 with
  | none => some (.missingRule p.1)
  | some actual => if p.2 ≠ actual then some (.arityMismatch p.1 actual p.2) else none

/-- The error cases of `ensureRegoConformance`: empty source, a parser
diagnostic, use of imports, and the aggregated data-access violations. -/
inductive RegoErr where
  | emptySource
  | parseError (msg : String)
  | importsUsed
  | dataAccess (errs : List DataErr)

/-- packageRef: the canonical package path for `path`, built by
appending one string term per dot-separated component to the root
reference `data`. -/
def packageRef (path : String) : List Value :=
  (path.splitOn ".").foldl (fun acc v => acc ++ [Value.str v]) [Value.var "data"]

/-- ensureRegoConformance: reject empty source, parse with the external
parser, reject imports, clear the package path, run the data-access
check, and on success set the canonical package path and serialize with
the external printer. -/
def ensureRegoConformance (parse : String → String → Except String Module)
    (render : Module → String) (kind path rego : String) : Except RegoErr String :=
  if rego = "" then .error .emptySource
  else
    match parse kind rego with
    | .error e => .error (.parseError e)
    | .ok m =>
      if m.imports.length ≠ 0 then .error .importsUsed
      else
        match checkDataAccess { m with pkgPath := [] } with
        | some errs => .error (.dataAccess errs)
        | none => .ok (render { m with pkgPath := packageRef path })

/-- The rendering of the `Errors` aggregate (`Errors.Error` in the Go
source): a slice is created with `make` at the length of the aggregate,
the message of each entry is then appended to it, and the result is joined
with newlines — so the slice retains its initial empty strings. -/
def errorsError (msgs : List String) : String :=
  String.intercalate "\n" (msgs.foldl (fun s e => s ++ [e]) (List.replicate msgs.length ""))

/-- A module whose single body term is a `data` reference that is itself
flagged and carries a second violating `data` reference nested in its
terms. -/
def nestedViolationModule : Module :=
  { pkgPath := [], imports := [],
    rules := [{ name := "violation", args := [], key := none, value := none,
                body := [Value.ref [Value.var "data",
                                    Value.ref [Value.var "data", Value.str "bad"]]] }] }

/-- A rule whose head key is an array of one variable and one object
literal, the shape the specification requires to succeed with arity 2. -/
def arityWitnessRule : Rule :=
  { name := "violation", args := [],
    key := some (Value.arr [Value.var "x", Value.obj []]),
    value := none, body := [] }

/-- A rule whose head key is a bare string literal, which arity
inference rejects. -/
def badKeyRule : Rule :=
  { name := "violation", args := [], key := some (Value.str "oops"),
    value := none, body := [] }

/-- A module declaring only `badKeyRule`. -/
def badKeyModule : Module := { pkgPath := [], imports := [], rules := [badKeyRule] }

/-- A parser stub returning `badKeyModule` for every source. -/
def badKeyParse : String → String → Except String Module := fun _ _ => .ok badKeyModule

/-- A rule named `violation` with a single-variable head key. -/
def goodRule : Rule :=
  { name := "violation", args := [], key := some (Value.var "x"),
    value := none, body := [] }

/-- A module declaring only `goodRule`. -/
def goodModule : Module := { pkgPath := [], imports := [], rules := [goodRule] }

/-- A parser stub returning `goodModule` for every source. -/
def goodParse : String → String → Except String Module := fun _ _ => .ok goodModule

/-- The module with no rules at all. -/
def emptyModule : Module := { pkgPath := [], imports := [], rules := [] }

/-- A module with a non-trivial original package path, an allowed
`data.inventory` reference and an `input` reference; its package path
would itself be flagged if the walk saw it. -/
def witModule : Module :=
  { pkgPath := [Value.var "data", Value.str "oldpkg"], imports := [],
    rules := [{ name := "violation", args := [],
                key := some (Value.obj [(Value.str "msg", Value.var "msg")]),
                value := none,
                body := [Value.ref [Value.var "input", Value.str "a"],
                         Value.ref [Value.var "data", Value.str "inventory"]] }] }

/-- The rewritten form of `witModule` with the canonical path for
`bar.baz`. -/
def witRewritten : Module := { witModule with pkgPath := packageRef "bar.baz" }

/-- A parser stub mapping the two source texts of the round trip to the
two module values. -/
def witParse : String → String → Except String Module := fun _ s =>
  if s = "srctext" then .ok witModule
  else if s = "outtext" then .ok witRewritten
  else .error "syntax"

/-- A printer stub producing the output text of the round trip. -/
def witRender : Module → String := fun _ => "outtext"

/-- A parser stub behaving like the external parser on whitespace-only
input: it reports a diagnostic rather than a module. -/
def wsParse : String → String → Except String Module := fun _ _ => .error "empty module"

/-- A printer stub for the whitespace counterexample. -/
def wsRender : Module → String := fun _ => ""

/-- The `checkDataAccess` closure computes exactly the specification-side
classifier and always signals the walker to keep descending. -/
theorem refCallback_eq_spec (r : List Value) :
    refCallback r = (specRefViolation r, false) := by
  unfold refCallback specRefViolation
  by_cases h1 : refHasDataRoot r
  · simp only [h1, if_true]
    by_cases h2 : r.length < 2
    · simp [h2]
    · simp only [h2, if_false]
      generalize r.getD 1 Value.nullV = x
      by_cases h3 : isGroundV x = true
      · rw [if_neg (by simp [h3]), if_neg (by simp [h3])]
        cases x <;>
          simp_all [isInventoryString, validDataFields, isGroundV] <;>
          split <;> simp
      · rw [Bool.not_eq_true] at h3
        rw [if_pos (by simp [h3]), if_pos (by simp [h3])]
  · simp [h1]

mutual
/-- The walk of a term value reports exactly the violations of the
references it contains, one visit per reference, in pre-order document
order. -/
theorem walkV_eq (v : Value) : walkV v = (refsV v).filterMap specRefViolation := by
  cases v with
  | arr es => simpa [walkV, refsV] using walkL_eq es
  | obj kvs => simpa [walkV, refsV] using walkP_eq kvs
  | ref ts =>
    have h := walkL_eq ts
    simp only [walkV, refsV, refCallback_eq_spec, List.filterMap_cons, h]
    cases specRefViolation ts <;> simp
  | var s => simp [walkV, refsV]
  | str s => simp [walkV, refsV]
  | num n => simp [walkV, refsV]
  | boolV b => simp [walkV, refsV]
  | nullV => simp [walkV, refsV]

/-- List version of `walkV_eq`. -/
theorem walkL_eq (l : List Value) : walkL l = (refsL l).filterMap specRefViolation := by
  cases l with
  | nil => simp [walkL, refsL]
  | cons v vs => simp [walkL, refsL, walkV_eq v, walkL_eq vs]

/-- Pair version of `walkV_eq`. -/
theorem walkP_eq (l : List (Value × Value)) :
    walkP l = (refsP l).filterMap specRefViolation := by
  cases l with
  | nil => simp [walkP, refsP]
  | cons kv kvs => simp [walkP, refsP, walkV_eq kv.1, walkV_eq kv.2, walkP_eq kvs]
end

/-- Optional-term version of `walkV_eq`. -/
theorem walkOpt_eq (o : Option Value) :
    walkOpt o = (refsOpt o).filterMap specRefViolation := by
  cases o <;> simp [walkOpt, refsOpt, walkV_eq]

/-- Rule version of `walkV_eq`. -/
theorem walkRule_eq (r : Rule) :
    walkRule r = (ruleRefs r).filterMap specRefViolation := by
  simp [walkRule, ruleRefs, walkL_eq, walkOpt_eq]

/-- Rule-list version of `walkV_eq`. -/
theorem walkRules_eq (rs : List Rule) :
    walkRules rs = (rulesRefs rs).filterMap specRefViolation := by
  induction rs with
  | nil => simp [walkRules, rulesRefs]
  | cons r rest ih => simp [walkRules, rulesRefs, walkRule_eq, ih]

/-- The whole module walk reports exactly the violations of the
references of the module in document order. -/
theorem walkModule_eq (m : Module) :
    walkModule m = (allRefsModule m).filterMap specRefViolation := by
  have hpkg : walkV (Value.ref m.pkgPath) =
      (m.pkgPath :: refsL m.pkgPath).filterMap specRefViolation := by
    rw [walkV_eq]; rfl
  simp only [walkModule, allRefsModule, hpkg, walkL_eq, walkRules_eq, List.cons_append,
    List.filterMap_cons, List.filterMap_append, List.append_assoc]
  cases specRefViolation m.pkgPath <;> simp

/-- C1: `checkDataAccess` visits every reference of the module and
returns exactly the per-reference violations — missing-field for a
`data` reference of length below two, literal-access for a non-ground
second segment, invalid-field for a ground second segment other than the
string `"inventory"` — collected in document order with no short-circuit
across references, and it returns success (`none`) exactly when that
list is empty. -/
theorem checkDataAccess_characterization (m : Module) :
    walkModule m = (allRefsModule m).filterMap specRefViolation ∧
    (checkDataAccess m = none ↔ (allRefsModule m).filterMap specRefViolation = []) ∧
    (∀ l, (allRefsModule m).filterMap specRefViolation = l → l ≠ [] →
      checkDataAccess m = some l) := by
  have h := walkModule_eq m
  refine ⟨h, ?_, ?_⟩
  · unfold checkDataAccess
    rw [h]
    by_cases he : (allRefsModule m).filterMap specRefViolation = [] <;>
      simp [he, List.length_pos]
  · intro l hl hne
    unfold checkDataAccess
    rw [h, hl]
    simp [List.length_pos, hne]

/-- C5 counterexample: the walker descends into the sub-structure of a
reference it has already flagged — the violating reference nested inside
the own terms of the flagged reference is reported as well, giving two
entries where the claim predicts one. -/
theorem nested_violation_also_reported :
    checkDataAccess nestedViolationModule =
      some [DataErr.invalidField (Value.ref [Value.var "data", Value.str "bad"]),
            DataErr.invalidField (Value.str "bad")] ∧
    (walkModule nestedViolationModule).length = 2 := by
  constructor <;>
    simp [checkDataAccess, walkModule, walkRules, walkRule, walkOpt, walkV, walkL,
      refCallback, refHasDataRoot, isGroundV, isGroundL, validDataFields,
      nestedViolationModule]

/-- C5 amended: after recording a violation for a reference the walker
skips the remaining checks for that reference but still descends into
the own terms of the reference (the skip signal is always `false`), so
a violating reference nested inside an already-flagged reference
produces an additional violation entry right after it. -/
theorem flagged_ref_still_descends (ts : List Value) (e : DataErr)
    (h : specRefViolation ts = some e) :
    walkV (Value.ref ts) = e :: (refsL ts).filterMap specRefViolation := by
  simp [walkV, refCallback_eq_spec, h, walkL_eq]

/-- Witness for `flagged_ref_still_descends` at a concrete flagged
reference with a violating nested reference. -/
theorem flagged_ref_still_descends_witness :
    walkV (Value.ref [Value.var "data", Value.ref [Value.var "data", Value.str "bad"]]) =
      DataErr.invalidField (Value.ref [Value.var "data", Value.str "bad"]) ::
        (refsL [Value.var "data", Value.ref [Value.var "data", Value.str "bad"]]).filterMap
          specRefViolation :=
  flagged_ref_still_descends _ _
    (by simp [specRefViolation, refHasDataRoot, isGroundV, isGroundL, isInventoryString])

/-- Shape characterization of the array-element test of `getRuleArity`. -/
theorem isVarOrObject_true_iff (e : Value) :
    isVarOrObject e = true ↔ (∃ s, e = Value.var s) ∨ ∃ kvs, e = Value.obj kvs := by
  cases e <;> simp [isVarOrObject]

/-- C2: arity inference by head-key shape — absent key is arity 0, a
single variable is arity 1, an array whose elements are all variables or
object literals has the array length as arity, an array with any other
element shape fails with the invalid-signature error naming the array,
and any other head-key shape fails with the invalid-signature error
naming the key. -/
theorem getRuleArity_cases (r : Rule) :
    (r.key = none → getRuleArity r = .ok 0) ∧
    (∀ x, r.key = some (Value.var x) → getRuleArity r = .ok 1) ∧
    (∀ es, r.key = some (Value.arr es) →
      ((∀ e ∈ es, (∃ s, e = Value.var s) ∨ ∃ kvs, e = Value.obj kvs) →
        getRuleArity r = .ok es.length) ∧
      ((∃ e ∈ es, (∀ s, e ≠ Value.var s) ∧ ∀ kvs, e ≠ Value.obj kvs) →
        getRuleArity r = .error (.invalidArrayElems es))) ∧
    (∀ t, r.key = some t → (∀ x, t ≠ Value.var x) → (∀ es, t ≠ Value.arr es) →
      getRuleArity r = .error (.invalidKeyShape t)) := by
  refine ⟨?_, ?_, ?_, ?_⟩
  · intro h; simp [getRuleArity, h]
  · intro x h; simp [getRuleArity, h]
  · intro es h
    constructor
    · intro hall
      have hany : es.any (fun e => !isVarOrObject e) = false := by
        rw [List.any_eq_false]
        intro e he
        have := (isVarOrObject_true_iff e).mpr (hall e he)
        simp [this]
      simp [getRuleArity, h, hany]
    · rintro ⟨e, he, hnv, hno⟩
      have hbad : isVarOrObject e = false := by
        rw [Bool.eq_false_iff]
        intro hc
        rcases (isVarOrObject_true_iff e).mp hc with ⟨s, rfl⟩ | ⟨kvs, rfl⟩
        · exact hnv s rfl
        · exact hno kvs rfl
      have hany : es.any (fun e => !isVarOrObject e) = true := by
        rw [List.any_eq_true]
        exact ⟨e, he, by simp [hbad]⟩
      simp [getRuleArity, h, hany]
  · intro t ht hnv hna
    cases t with
    | var x => exact absurd rfl (hnv x)
    | arr es => exact absurd rfl (hna es)
    | str s => simp [getRuleArity, ht]
    | num n => simp [getRuleArity, ht]
    | boolV b => simp [getRuleArity, ht]
    | nullV => simp [getRuleArity, ht]
    | obj kvs => simp [getRuleArity, ht]
    | ref ts => simp [getRuleArity, ht]

/-- Witness for `getRuleArity_cases`: a head-key array of a variable and
an object literal yields arity 2. -/
theorem getRuleArity_cases_witness :
    getRuleArity arityWitnessRule = .ok 2 :=
  ((getRuleArity_cases arityWitnessRule).2.2.1 [Value.var "x", Value.obj []] rfl).1
    (by
      intro e he
      simp only [List.mem_cons, List.not_mem_nil, or_false] at he
      rcases he with rfl | rfl
      · exact Or.inl ⟨"x", rfl⟩
      · exact Or.inr ⟨[], rfl⟩)

/-- The map-building loop succeeds exactly when arity inference succeeds
for every rule passed to it, whatever map it starts from. -/
theorem buildArities_ok_iff (rs : List Rule) :
    ∀ ar, (∃ a, buildArities rs ar = .ok a) ↔ ∀ r ∈ rs, ∃ n, getRuleArity r = .ok n := by
  induction rs with
  | nil => intro ar; simp [buildArities]
  | cons r0 rest ih =>
    intro ar
    cases hg : getRuleArity r0 with
    | error e =>
      simp only [buildArities, hg]
      constructor
      · rintro ⟨a, ha⟩; exact absurd ha (by simp)
      · intro hall
        rcases hall r0 (by simp) with ⟨n, hn⟩
        rw [hg] at hn
        exact absurd hn (by simp)
    | ok a =>
      simp only [buildArities, hg]
      rw [ih (insertArity ar r0.name a)]
      constructor
      · intro hall r hr
        rcases List.mem_cons.mp hr with rfl | hr2
        · exact ⟨a, hg⟩
        · exact hall r hr2
      · intro hall r hr
        exact hall r (List.mem_cons_of_mem _ hr)

/-- The requirements loop is the specification-side classifier mapped
over the iteration sequence of the required map. -/
theorem collectReqErrs_eq_filterMap (ar : List (String × Nat)) (reqs : List (String × Nat)) :
    collectReqErrs ar reqs = reqs.filterMap (specReqViolation ar) := by
  induction reqs with
  | nil => simp [collectReqErrs]
  | cons p rest ih =>
    rcases p with ⟨name, arity⟩
    simp only [collectReqErrs, List.filterMap_cons]
    cases hl : lookupArity ar name with
    | none => simp [specReqViolation, hl, ih]
    | some actual =>
      by_cases hv : arity ≠ actual <;> simp [specReqViolation, hl, hv, ih]

/-- Reduction of `requireRulesOnModule` when the arity map builds. -/
theorem requireRulesOnModule_ok_case (m : Module) (ar reqs : List (String × Nat))
    (hb : buildArities m.rules [] = .ok ar) :
    requireRulesOnModule m reqs =
      if (collectReqErrs ar reqs).length ≠ 0
      then .error (.agg (collectReqErrs ar reqs)) else .ok () := by
  unfold requireRulesOnModule
  rw [hb]

/-- Reduction of `requireRulesOnModule` when the arity map aborts. -/
theorem requireRulesOnModule_error_case (m : Module) (e : SigErr)
    (reqs : List (String × Nat)) (hb : buildArities m.rules [] = .error e) :
    requireRulesOnModule m reqs = .error (.sig e) := by
  unfold requireRulesOnModule
  rw [hb]

/-- C3: for a parseable source, `requireRules` aborts with the (never
aggregated) invalid-signature error as soon as arity inference fails for
any declared rule; otherwise it returns the aggregate of the per-pair
missing-rule and arity-mismatch findings over every required pair, and
succeeds exactly when there are none. -/
theorem requireRules_signature_then_aggregate
    (parse : String → String → Except String Module) (name rego : String)
    (m : Module) (reqs : List (String × Nat))
    (hp : parse name rego = .ok m) :
    ((∃ r ∈ m.rules, ∃ e, getRuleArity r = .error e) →
      ∃ e, requireRules parse name rego reqs = .error (.sig e)) ∧
    (∀ ar, buildArities m.rules [] = .ok ar →
      (reqs.filterMap (specReqViolation ar) = [] →
        requireRules parse name rego reqs = .ok ()) ∧
      (reqs.filterMap (specReqViolation ar) ≠ [] →
        requireRules parse name rego reqs =
          .error (.agg (reqs.filterMap (specReqViolation ar))))) := by
  constructor
  · rintro ⟨r, hr, e, he⟩
    have hno : ¬ ∃ a, buildArities m.rules [] = .ok a := by
      rw [buildArities_ok_iff]
      intro hall
      rcases hall r hr with ⟨n, hn⟩
      rw [he] at hn
      exact absurd hn (by simp)
    cases hb : buildArities m.rules [] with
    | error e2 =>
      exact ⟨e2, by simp [requireRules, hp, requireRulesOnModule_error_case m e2 reqs hb]⟩
    | ok a => exact absurd ⟨a, hb⟩ hno
  · intro ar hb
    have hcase := requireRulesOnModule_ok_case m ar reqs hb
    constructor
    · intro hnil
      have hlen0 : ¬ (collectReqErrs ar reqs).length ≠ 0 := by
        rw [collectReqErrs_eq_filterMap, hnil]
        simp
      rw [if_neg hlen0] at hcase
      simp [requireRules, hp, hcase]
    · intro hne
      have hlen : (collectReqErrs ar reqs).length ≠ 0 := by
        rw [collectReqErrs_eq_filterMap]
        simpa using hne
      rw [if_pos hlen] at hcase
      simp [requireRules, hp, hcase, collectReqErrs_eq_filterMap]

/-- Witness for `requireRules_signature_then_aggregate`: a module with a
string-literal head key makes `requireRules` abort with the
invalid-signature error even though rules are also missing. -/
theorem requireRules_signature_then_aggregate_witness :
    ∃ e, requireRules badKeyParse "lbl" "src" [("violation", 1)] = .error (.sig e) :=
  (requireRules_signature_then_aggregate badKeyParse "lbl" "src" badKeyModule
      [("violation", 1)] rfl).1
    ⟨badKeyRule, by simp [badKeyModule],
      ⟨.invalidKeyShape (Value.str "oops"), by simp [getRuleArity, badKeyRule]⟩⟩

/-- C10: with an empty required mapping, `requireRules` on a parseable
source succeeds exactly when arity inference succeeds for every declared
rule — a non-inferable head shape still fails the call even though
nothing is required. -/
theorem requireRules_empty_required
    (parse : String → String → Except String Module) (name rego : String)
    (m : Module) (hp : parse name rego = .ok m) :
    requireRules parse name rego [] = .ok () ↔
      ∀ r ∈ m.rules, ∃ n, getRuleArity r = .ok n := by
  cases hb : buildArities m.rules [] with
  | error e =>
    have hno : ¬ ∀ r ∈ m.rules, ∃ n, getRuleArity r = .ok n := by
      rw [← buildArities_ok_iff m.rules []]
      rintro ⟨a, ha⟩
      rw [hb] at ha
      exact absurd ha (by simp)
    have herr := requireRulesOnModule_error_case m e [] hb
    simp [requireRules, hp, herr, hno]
  | ok ar =>
    have hyes : ∀ r ∈ m.rules, ∃ n, getRuleArity r = .ok n :=
      (buildArities_ok_iff m.rules []).mp ⟨ar, hb⟩
    have hok : requireRules parse name rego [] = .ok () := by
      have hcase := requireRulesOnModule_ok_case m ar [] hb
      rw [if_neg (by simp [collectReqErrs])] at hcase
      simp [requireRules, hp, hcase]
    exact iff_of_true hok hyes

/-- Witness for `requireRules_empty_required`: with an empty requirement
map and an inferable module the call succeeds. -/
theorem requireRules_empty_required_witness :
    requireRules goodParse "lbl" "src" [] = .ok () :=
  (requireRules_empty_required goodParse "lbl" "src" goodModule rfl).mpr
    (by
      intro r hr
      simp only [goodModule, List.mem_singleton] at hr
      subst hr
      exact ⟨1, by simp [getRuleArity, goodRule]⟩)

/-- C8 counterexample: two enumeration orders of the same required map
(they are permutations of each other, as the randomized Go map iteration
permits for identical arguments) produce aggregated errors in different
entry orders, so the results of the two calls differ. -/
theorem requireRules_aggregate_order_dependent :
    ([("a", 1), ("b", 1)] : List (String × Nat)).Perm [("b", 1), ("a", 1)] ∧
    requireRulesOnModule emptyModule [("a", 1), ("b", 1)] ≠
      requireRulesOnModule emptyModule [("b", 1), ("a", 1)] := by
  constructor
  · exact List.Perm.swap _ _ _
  · simp [requireRulesOnModule, buildArities, emptyModule, collectReqErrs, lookupArity]

/-- C8 amended: `requireRules` over a module is deterministic up to the
enumeration order of the required map — two permuted enumeration orders
agree on success, agree on any invalid-signature abort, and produce
aggregated error lists that are permutations of each other. -/
theorem requireRules_perm_invariant (m : Module) (reqs1 reqs2 : List (String × Nat))
    (hp : reqs1.Perm reqs2) :
    (requireRulesOnModule m reqs1 = .ok () ↔ requireRulesOnModule m reqs2 = .ok ()) ∧
    (∀ e, requireRulesOnModule m reqs1 = .error (.sig e) ↔
      requireRulesOnModule m reqs2 = .error (.sig e)) ∧
    (∀ l1 l2, requireRulesOnModule m reqs1 = .error (.agg l1) →
      requireRulesOnModule m reqs2 = .error (.agg l2) → l1.Perm l2) := by
  cases hb : buildArities m.rules [] with
  | error e =>
    have r1 := requireRulesOnModule_error_case m e reqs1 hb
    have r2 := requireRulesOnModule_error_case m e reqs2 hb
    refine ⟨by simp [r1, r2], by simp [r1, r2], ?_⟩
    intro l1 l2 e1 e2
    rw [r1] at e1
    exact absurd e1 (by simp)
  | ok ar =>
    have hperm : (collectReqErrs ar reqs1).Perm (collectReqErrs ar reqs2) := by
      rw [collectReqErrs_eq_filterMap, collectReqErrs_eq_filterMap]
      exact hp.filterMap _
    have hlen : (collectReqErrs ar reqs1).length = (collectReqErrs ar reqs2).length :=
      hperm.length_eq
    have r1 := requireRulesOnModule_ok_case m ar reqs1 hb
    have r2 := requireRulesOnModule_ok_case m ar reqs2 hb
    by_cases h1 : (collectReqErrs ar reqs1).length ≠ 0
    · have h2 : (collectReqErrs ar reqs2).length ≠ 0 := by rw [← hlen]; exact h1
      rw [if_pos h1] at r1
      rw [if_pos h2] at r2
      refine ⟨by simp [r1, r2], by simp [r1, r2], ?_⟩
      intro l1 l2 e1 e2
      rw [r1] at e1
      rw [r2] at e2
      have e1' : collectReqErrs ar reqs1 = l1 := by simpa using e1
      have e2' : collectReqErrs ar reqs2 = l2 := by simpa using e2
      rw [← e1', ← e2']
      exact hperm
    · have h2 : ¬ (collectReqErrs ar reqs2).length ≠ 0 := by rw [← hlen]; exact h1
      rw [if_neg h1] at r1
      rw [if_neg h2] at r2
      refine ⟨by simp [r1, r2], by simp [r1, r2], ?_⟩
      intro l1 l2 e1 e2
      rw [r1] at e1
      exact absurd e1 (by simp)

/-- Witness for `requireRules_perm_invariant` at two concrete permuted
enumeration orders of the same required map. -/
theorem requireRules_perm_invariant_witness :
    (requireRulesOnModule emptyModule [("a", 1), ("b", 2)] = .ok () ↔
      requireRulesOnModule emptyModule [("b", 2), ("a", 1)] = .ok ()) ∧
    (∀ e, requireRulesOnModule emptyModule [("a", 1), ("b", 2)] = .error (.sig e) ↔
      requireRulesOnModule emptyModule [("b", 2), ("a", 1)] = .error (.sig e)) ∧
    (∀ l1 l2, requireRulesOnModule emptyModule [("a", 1), ("b", 2)] = .error (.agg l1) →
      requireRulesOnModule emptyModule [("b", 2), ("a", 1)] = .error (.agg l2) →
      l1.Perm l2) :=
  requireRules_perm_invariant emptyModule _ _ (List.Perm.swap _ _ _)

/-- Appending one mapped element per list entry to an accumulator is the
accumulator followed by the mapped list. -/
theorem foldl_push_eq_append {α β : Type} (f : α → β) :
    ∀ (l : List α) (acc : List β),
      l.foldl (fun a x => a ++ [f x]) acc = acc ++ l.map f := by
  intro l
  induction l with
  | nil => intro acc; simp
  | cons x xs ih => intro acc; simp [ih]

/-- The canonical package path is the root variable `data` followed by
one string term per dot-separated component of the desired path. -/
theorem packageRef_eq (path : String) :
    packageRef path = Value.var "data" :: (path.splitOn ".").map Value.str := by
  unfold packageRef
  rw [foldl_push_eq_append]
  rfl

/-- C4: on a non-empty source that parses, has no imports, and passes
the data-access walk with its package path cleared (the walk never sees
the original package declaration, which is unconstrained here),
`ensureRegoConformance` succeeds with the rendering of the module whose
package path is the canonical one, and — given that the external
printer/parser round-trips that module — the output re-parses to a
module whose package path is `data` followed by the dot-split of the
desired path. -/
theorem ensureRegoConformance_success
    (parse : String → String → Except String Module) (render : Module → String)
    (kind path rego : String) (m : Module)
    (h0 : rego ≠ "")
    (h1 : parse kind rego = .ok m)
    (h2 : m.imports = [])
    (h3 : checkDataAccess { m with pkgPath := [] } = none)
    (h4 : parse kind (render { m with pkgPath := packageRef path }) =
      .ok { m with pkgPath := packageRef path }) :
    ensureRegoConformance parse render kind path rego =
      .ok (render { m with pkgPath := packageRef path }) ∧
    ∀ out, ensureRegoConformance parse render kind path rego = .ok out →
      ∃ m2, parse kind out = .ok m2 ∧
        m2.pkgPath = Value.var "data" :: (path.splitOn ".").map Value.str := by
  have hmain : ensureRegoConformance parse render kind path rego =
      .ok (render { m with pkgPath := packageRef path }) := by
    have h3a := h3
    rw [h2] at h3a
    unfold ensureRegoConformance
    rw [if_neg h0, h1]
    simp [h2, h3a]
  refine ⟨hmain, ?_⟩
  intro out ho
  rw [hmain] at ho
  have hout : render { m with pkgPath := packageRef path } = out := by
    injection ho
  refine ⟨{ m with pkgPath := packageRef path }, ?_, ?_⟩
  · rw [← hout]
    exact h4
  · exact packageRef_eq path

/-- Witness for `ensureRegoConformance_success` at a concrete module and
round-tripping parser/printer stubs. -/
theorem ensureRegoConformance_success_witness :
    ensureRegoConformance witParse witRender "tkind" "bar.baz" "srctext" = .ok "outtext" ∧
    ∃ m2, witParse "tkind" "outtext" = .ok m2 ∧
      m2.pkgPath = Value.var "data" :: ("bar.baz".splitOn ".").map Value.str := by
  have h := ensureRegoConformance_success witParse witRender "tkind" "bar.baz" "srctext"
      witModule (by decide) (by simp [witParse]) rfl
      (by simp [checkDataAccess, walkModule, walkRules, walkRule, walkOpt, walkV, walkL,
        walkP, refCallback, refHasDataRoot, isGroundV, isGroundL, validDataFields,
        witModule])
      (by simp [witParse, witRender, witRewritten])
  exact ⟨h.1, h.2 "outtext" h.1⟩

/-- C9: running `ensureRegoConformance` again on its own successful
output with the same desired path succeeds again with the same output,
and the output re-parses to a module with the same rule set as the
original — given the printer/parser round trip of the rewritten module
and that its rendering is non-empty. -/
theorem ensureRegoConformance_idempotent
    (parse : String → String → Except String Module) (render : Module → String)
    (kind path rego : String) (m : Module)
    (h0 : rego ≠ "")
    (h1 : parse kind rego = .ok m)
    (h2 : m.imports = [])
    (h3 : checkDataAccess { m with pkgPath := [] } = none)
    (h4 : parse kind (render { m with pkgPath := packageRef path }) =
      .ok { m with pkgPath := packageRef path })
    (h5 : render { m with pkgPath := packageRef path } ≠ "") :
    ∀ out, ensureRegoConformance parse render kind path rego = .ok out →
      ensureRegoConformance parse render kind path out = .ok out ∧
      ∃ m2, parse kind out = .ok m2 ∧ m2.rules = m.rules := by
  intro out ho
  have hmain : ensureRegoConformance parse render kind path rego =
      .ok (render { m with pkgPath := packageRef path }) := by
    have h3a := h3
    rw [h2] at h3a
    unfold ensureRegoConformance
    rw [if_neg h0, h1]
    simp [h2, h3a]
  rw [hmain] at ho
  have hout : render { m with pkgPath := packageRef path } = out := by
    injection ho
  subst hout
  constructor
  · have h3a := h3
    rw [h2] at h3a
    unfold ensureRegoConformance
    rw [if_neg h5, h4]
    simp [h2, h3a]
  · exact ⟨{ m with pkgPath := packageRef path }, h4, rfl⟩

/-- Witness for `ensureRegoConformance_idempotent` at the concrete round
trip of `witModule`. -/
theorem ensureRegoConformance_idempotent_witness :
    ensureRegoConformance witParse witRender "tkind" "bar.baz" "outtext" = .ok "outtext" ∧
    ∃ m2, witParse "tkind" "outtext" = .ok m2 ∧ m2.rules = witModule.rules := by
  have h := ensureRegoConformance_idempotent witParse witRender "tkind" "bar.baz" "srctext"
      witModule (by decide) (by simp [witParse]) rfl
      (by simp [checkDataAccess, walkModule, walkRules, walkRule, walkOpt, walkV, walkL,
        walkP, refCallback, refHasDataRoot, isGroundV, isGroundL, validDataFields,
        witModule])
      (by simp [witParse, witRender, witRewritten])
      (by simp [witRender])
      "outtext"
      (by simp [ensureRegoConformance, witParse, witRender, witModule, checkDataAccess,
        walkModule, walkRules, walkRule, walkOpt, walkV, walkL, walkP, refCallback,
        refHasDataRoot, isGroundV, isGroundL, validDataFields])
  exact h

/-- C6 counterexample: an all-whitespace source is not the empty string,
so `ensureRegoConformance` hands it to the parser and surfaces the parse
diagnostic instead of the empty-source error. -/
theorem whitespace_source_parse_error :
    ensureRegoConformance wsParse wsRender "tkind" "p" " " =
      .error (.parseError "empty module") ∧
    ensureRegoConformance wsParse wsRender "tkind" "p" " " ≠ .error .emptySource := by
  constructor <;> simp [ensureRegoConformance, wsParse]

/-- C6 amended: `ensureRegoConformance` fails with the empty-source
error exactly when the source is the empty string; whitespace-only
sources go to the parser. -/
theorem emptySource_iff_empty_string
    (parse : String → String → Except String Module) (render : Module → String)
    (kind path rego : String) :
    ensureRegoConformance parse render kind path rego = .error .emptySource ↔
      rego = "" := by
  constructor
  · intro h
    by_contra hne
    unfold ensureRegoConformance at h
    rw [if_neg hne] at h
    cases hpm : parse kind rego with
    | error e =>
      rw [hpm] at h
      exact absurd h (by simp)
    | ok m =>
      rw [hpm] at h
      simp only at h
      by_cases hi : m.imports.length ≠ 0
      · rw [if_pos hi] at h
        exact absurd h (by simp)
      · rw [if_neg hi] at h
        cases hc : checkDataAccess { m with pkgPath := [] } with
        | none =>
          rw [hc] at h
          exact absurd h (by simp)
        | some errs =>
          rw [hc] at h
          exact absurd h (by simp)
  · intro h
    subst h
    simp [ensureRegoConformance]

/-- C7: the aggregate rendering of `Errors.Error` prepends one empty
entry per error before the messages, so a one-entry aggregate renders
with a leading newline instead of as the plain newline-join of its
messages. -/
theorem errorsError_prepends_empty_entries :
    errorsError ["x"] = "\nx" ∧
    errorsError ["x"] ≠ String.intercalate "\n" ["x"] ∧
    errorsError ["a", "b"] = "\n\na\nb" := by
  refine ⟨by decide, by decide, by decide⟩

/-- Witness for `checkDataAccess_characterization`: on a module whose
original package path itself reaches an invalid `data` field, the check
returns exactly the one-entry list of the classifier. -/
theorem checkDataAccess_characterization_witness :
    checkDataAccess witModule = some [DataErr.invalidField (Value.str "oldpkg")] :=
  (checkDataAccess_characterization witModule).2.2
    [DataErr.invalidField (Value.str "oldpkg")]
    (by simp [allRefsModule, rulesRefs, ruleRefs, refsOpt, refsV, refsL, refsP,
      specRefViolation, refHasDataRoot, isGroundV, isGroundL, isInventoryString,
      witModule])
    (by simp)

end RegoHelpers
